import Mathlib

/-!
Shallow embedding of `google-adds-pull-params.py` and `google_ads_config.py`
(repository `google-ads-local`): the account-hierarchy BFS traversal
(`get_full_account_hierarchy`), the per-account click fetcher
(`query_clicks_for_customer`), credential validation
(`build_client_with_refresh` over `GOOGLE_ADS_CONFIG`), and the `main`
orchestrator, together with theorems settling the specification claims.

Remote collaborators (the Google Ads service) are modelled as explicit
environment functions; a Python `GoogleAdsException` is modelled as the
failure constructor of the corresponding outcome type.
-/

namespace GoogleAdsLocal

/-! ## Hierarchy traversal: `get_full_account_hierarchy`

The remote child-listing call (`googleads_service.search_stream` with the
`customer_client` GAQL query) either fails (`GoogleAdsException`, modelled
as `none`) or yields a list of rows, each carrying `customer_client.id`
(a string) and the `customer_client.manager` flag. -/

/-- Environment for the traversal: for a manager ID, `none` models a
`GoogleAdsException` raised by `search_stream`; `some rows` models the
streamed rows, each `(customer_id_str, manager_flag)`. -/
def ListEnv : Type := String → Option (List (String × Bool))

/-- The loop state of `get_full_account_hierarchy`:
`queue` is `manager_ids_to_process` (a FIFO deque, popped at the front,
appended at the back), `visited` is `processed_manager_ids`,
`clients` is `client_customer_ids`.  `expanded` records the managers
dequeued so far, mirroring the per-dequeue progress log line. -/
structure TraversalState where
  queue : List String
  visited : Finset String
  clients : Finset String
  expanded : List String
deriving DecidableEq

/-- Processing of one streamed row inside the `for row in batch.results`
loop: a manager row is enqueued (and marked visited) unless already
visited; a client row is added to the result set. -/
def processRow (st : TraversalState) (row : String × Bool) : TraversalState :=
  if row.2 then
    if row.1 ∈ st.visited then st
    else { st with visited := insert row.1 st.visited, queue := st.queue ++ [row.1] }
  else
    { st with clients := insert row.1 st.clients }

/-- One iteration of the `while manager_ids_to_process` loop: pop the
front manager, query its children; on `GoogleAdsException` (`none`) skip
the branch (`continue`), otherwise fold the rows through `processRow`. -/
def stepTraversal (env : ListEnv) (st : TraversalState) : TraversalState :=
  match st.queue with
  | [] => st
  | m :: rest =>
      let st1 : TraversalState := { st with queue := rest, expanded := st.expanded ++ [m] }
      match env m with
      | none => st1
      | some rows => rows.foldl processRow st1

/-- The `while` loop, with explicit fuel bounding the number of
iterations (the Python loop runs until the queue empties). -/
def runTraversal (env : ListEnv) : Nat → TraversalState → TraversalState
  | 0, st => st
  | n + 1, st =>
      if st.queue = [] then st
      else runTraversal env n (stepTraversal env st)

/-- The starting state of `get_full_account_hierarchy manager_id`:
queue `deque([manager_id])`, visited `{manager_id}`, empty result set. -/
def initState (manager_id : String) : TraversalState :=
  { queue := [manager_id], visited := {manager_id}, clients := ∅, expanded := [] }

/-- `get_full_account_hierarchy`: run the traversal loop from the
initial state and return the accumulated client-account set. -/
def get_full_account_hierarchy (env : ListEnv) (fuel : Nat) (manager_id : String) :
    Finset String :=
  (runTraversal env fuel (initState manager_id)).clients

/-! ## Hierarchies as data

A hierarchy (the spec's `AccountHierarchy`) assigns each account a
manager/client tag and a list of direct children; `nodes` is the finite
carrier.  `envOf` is the failure-free remote service answering the
child-listing query from this data. -/

structure Hierarchy where
  nodes : List String
  isMgr : String → Bool
  children : String → List String

/-- The remote account service induced by a hierarchy: listing always
succeeds and returns the direct children, each tagged by `isMgr`. -/
def envOf (H : Hierarchy) : ListEnv :=
  fun m => some ((H.children m).map (fun c => (c, H.isMgr c)))

/-- Well-formedness: the root is a node and children of nodes are nodes. -/
def Closed (H : Hierarchy) (root : String) : Prop :=
  root ∈ H.nodes ∧ ∀ a ∈ H.nodes, ∀ c ∈ H.children a, c ∈ H.nodes

instance (H : Hierarchy) (root : String) : Decidable (Closed H root) := by
  unfold Closed; infer_instance

/-- Fuel sufficient to drain the queue on a closed hierarchy
(established below): each loop iteration strictly decreases
`queue.length + 2·|nodes \ visited|`. -/
def fuelFor (H : Hierarchy) : Nat :=
  2 * H.nodes.length + 2

/-- Final traversal state of `get_full_account_hierarchy` on a
hierarchy, with the sufficient fuel. -/
def resolveState (H : Hierarchy) (root : String) : TraversalState :=
  runTraversal (envOf H) (fuelFor H) (initState root)

/-- `resolve(root)` of the spec: the terminal-account set computed by
`get_full_account_hierarchy` over the hierarchy's remote service. -/
def resolve (H : Hierarchy) (root : String) : Finset String :=
  get_full_account_hierarchy (envOf H) (fuelFor H) root

/-- Child edges of a hierarchy. -/
def Edge (H : Hierarchy) (a b : String) : Prop :=
  b ∈ H.children a

/-- Transitive reachability along child edges. -/
def Reaches (H : Hierarchy) (root x : String) : Prop :=
  Relation.ReflTransGen (Edge H) root x

/-- Reachability along manager nodes: every node entered after the root
is tagged manager.  This is the set of accounts the BFS can dequeue. -/
def MgrReaches (H : Hierarchy) (root m : String) : Prop :=
  Relation.ReflTransGen (fun a b => Edge H a b ∧ H.isMgr b = true) root m

/-- Acyclicity of the manager-account graph, witnessed by a rank
function that strictly drops along manager-to-manager edges. -/
def AcyclicMgr (H : Hierarchy) : Prop :=
  ∃ rank : String → Nat,
    ∀ a b, H.isMgr a = true → H.isMgr b = true → Edge H a b → rank b < rank a

/-- Clients are terminal: a node tagged client reports no children. -/
def ClientsTerminal (H : Hierarchy) : Prop :=
  ∀ a, H.isMgr a = false → H.children a = []

/-! ## Click fetcher: `query_clicks_for_customer`

`service.search` either succeeds with a list of rows (materialized by
`list(response)` before any record is appended) or raises a
`GoogleAdsException` carrying a non-empty list of errors
(`e.failure.errors`; the code reads `errors[0].message`). -/

/-- One row of the `click_view` report response. -/
structure ClickRow where
  gclid : String
  campaign_id : Nat
  ad_group_id : Nat
  segments_date : String
deriving DecidableEq

/-- One entry of `e.failure.errors`: whether
`error.error_code.authorization_error == USER_PERMISSION_DENIED`,
plus the error message. -/
structure AdsErrorEntry where
  permission_denied : Bool
  message : String
deriving DecidableEq

/-- Outcome of `service.search` + `list(response)`: success with all
rows, or a `GoogleAdsException` with a non-empty error list. -/
inductive SearchOutcome where
  | success (rows : List ClickRow)
  | failure (first : AdsErrorEntry) (rest : List AdsErrorEntry)
deriving DecidableEq

/-- The remote reporting service: `search` keyed by customer ID and the
query date interpolated into the GAQL `WHERE segments.date = ...`. -/
def SearchEnv : Type := String → String → SearchOutcome

/-- The dictionary appended per row, with `customer_id` stamped from the
queried account and `timestamp` taken from the row's `segments.date`. -/
structure ClickRecord where
  gclid : String
  campaign_id : Nat
  ad_group_id : Nat
  timestamp : String
  customer_id : String
deriving DecidableEq

/-- The record built from one response row inside the `for row in
processed_rows` loop. -/
def mkClickRecord (customer_id : String) (row : ClickRow) : ClickRecord :=
  { gclid := row.gclid
    campaign_id := row.campaign_id
    ad_group_id := row.ad_group_id
    timestamp := row.segments_date
    customer_id := customer_id }

/-- The log line emitted by one `query_clicks_for_customer` call. -/
inductive FetchLog where
  | infoRows (n : Nat)
  | infoNoData
  | debugDenied
  | warnOther (message : String)
deriving DecidableEq

/-- `query_clicks_for_customer`: on success map every row to a record
(info log); on `GoogleAdsException`, return `[]` early with a debug log
if any error is `USER_PERMISSION_DENIED`, otherwise log a warning with
the first error's message and fall through to `return results`, which is
still the empty list because the exception precedes every append. -/
def query_clicks_for_customer (search : SearchEnv) (customer_id query_date : String) :
    List ClickRecord × FetchLog :=
  match search customer_id query_date with
  | .success rows =>
      if rows = [] then ([], .infoNoData)
      else (rows.map (mkClickRecord customer_id), .infoRows rows.length)
  | .failure first rest =>
      if (first :: rest).any (fun e => e.permission_denied) then ([], .debugDenied)
      else ([], .warnOther first.message)

/-! ## Configuration and credential validation

`google_ads_config.py` builds `GOOGLE_ADS_CONFIG` from `os.getenv` with
`""` defaults; `build_client_with_refresh` rejects the configuration when
any required field is falsy (`not creds.get(field)`), i.e. absent or the
empty string. -/

/-- The process environment, `os.getenv`: `none` when unset. -/
def Getenv : Type := String → Option String

/-- A configuration dictionary: `none` models an absent key. -/
def Config : Type := String → Option String

/-- `GOOGLE_ADS_CONFIG` of `google_ads_config.py`: each credential key
reads its environment variable, defaulting to the empty string (the
boolean `use_proto_plus` entry is irrelevant to the claims and kept as
its source string). -/
def GOOGLE_ADS_CONFIG (getenv : Getenv) : Config := fun k =>
  if k = "developer_token" then some ((getenv "GOOGLE_ADS_DEVELOPER_TOKEN").getD "")
  else if k = "login_customer_id" then some ((getenv "GOOGLE_ADS_LOGIN_CUSTOMER_ID").getD "")
  else if k = "client_id" then some ((getenv "GOOGLE_ADS_CLIENT_ID").getD "")
  else if k = "client_secret" then some ((getenv "GOOGLE_ADS_CLIENT_SECRET").getD "")
  else if k = "refresh_token" then some ((getenv "GOOGLE_ADS_REFRESH_TOKEN").getD "")
  else if k = "access_token" then some ((getenv "GOOGLE_ADS_ACCESS_TOKEN").getD "")
  else none

/-- `REQUIRED_FIELDS` of the script. -/
def REQUIRED_FIELDS : List String :=
  ["developer_token", "client_id", "client_secret", "refresh_token", "login_customer_id"]

/-- Python truth test `not creds.get(field)`: true when the key is
absent or its value is falsy (the empty string). -/
def fieldMissing (creds : Config) (field : String) : Bool :=
  match creds field with
  | none => true
  | some v => v = ""

/-- The environment variable `google_ads_config.py` reads for each
required credential field. -/
def envVarOf (f : String) : String :=
  if f = "developer_token" then "GOOGLE_ADS_DEVELOPER_TOKEN"
  else if f = "login_customer_id" then "GOOGLE_ADS_LOGIN_CUSTOMER_ID"
  else if f = "client_id" then "GOOGLE_ADS_CLIENT_ID"
  else if f = "client_secret" then "GOOGLE_ADS_CLIENT_SECRET"
  else if f = "refresh_token" then "GOOGLE_ADS_REFRESH_TOKEN"
  else ""

/-- The list comprehension `[field for field in REQUIRED_FIELDS if not
creds.get(field)]`. -/
def missingFields (creds : Config) : List String :=
  REQUIRED_FIELDS.filter (fun f => fieldMissing creds f)

/-- `build_client_with_refresh`: raises `ValueError` (modelled as
`Except.error` carrying the missing field names of the message) when any
required field is missing; otherwise yields a client (opaque). -/
def build_client_with_refresh (creds : Config) : Except (List String) Unit :=
  if missingFields creds = [] then .ok () else .error (missingFields creds)

/-- `str(...).replace("-", "")` applied to `login_customer_id`. -/
def stripHyphens (s : String) : String :=
  ⟨s.data.filter (fun c => c ≠ '-')⟩

/-! ## Orchestrator: `main` -/

/-- The `all_data` accumulation loop of `main`: iterate the account IDs,
fetch each, and `extend` only when the fetched list is non-empty. -/
def collectAllData (fetch : String → List ClickRecord) (ids : List String) :
    List ClickRecord :=
  ids.foldl (fun all cid => let data := fetch cid; if data = [] then all else all ++ data) []

/-- How a run of `main` ends: early `return` after the failed client
build (no traversal, no query, no file), early `return` with no data
found (no file), or a file written with the collected records. -/
inductive MainOutcome where
  | initFailed (missing : List String)
  | noData
  | wrote (records : List ClickRecord)
deriving DecidableEq

/-- The sorted iteration order of `main`'s fetch loop:
`sorted(list(customer_ids_to_query))`. -/
def sortedIds (ids : Finset String) : List String :=
  ids.sort (· ≤ ·)

/-- `main`: build the client (aborting on `ValueError`), resolve the
hierarchy under the hyphen-stripped `login_customer_id`, fetch clicks per
sorted account for the target date, and either skip output (`noData`) or
write the aggregate (`wrote`).  `query_date` (yesterday, UTC) is an
opaque parameter. -/
def mainRun (creds : Config) (env : ListEnv) (fuel : Nat) (search : SearchEnv)
    (query_date : String) : MainOutcome :=
  match build_client_with_refresh creds with
  | .error missing => .initFailed missing
  | .ok _ =>
      let login_cid := stripHyphens ((creds "login_customer_id").getD "")
      let customer_ids_to_query := get_full_account_hierarchy env fuel login_cid
      let all_data := collectAllData
        (fun cid => (query_clicks_for_customer search cid query_date).1)
        (sortedIds customer_ids_to_query)
      if all_data = [] then .noData else .wrote all_data

/-! ## Concrete scenarios from the specification -/

/-- Scenario 1 hierarchy: root manager `"100"` has children
[manager `"200"`, client `"300"`]; `"200"` has children
[client `"400"`, client `"500"`]. -/
def scenario1 : Hierarchy :=
  { nodes := ["100", "200", "300", "400", "500"]
    isMgr := fun a => a == "100" || a == "200"
    children := fun a =>
      if a = "100" then ["200", "300"]
      else if a = "200" then ["400", "500"]
      else [] }

/-- Scenario 2 environment: `"100"` has a child manager `"200"` whose
listing call fails (`GoogleAdsException`) and a direct client child
`"300"`. -/
def scenario2Env : ListEnv := fun m =>
  if m = "100" then some [("200", true), ("300", false)]
  else none

/-- An environment in which `"200"` is reported under `"100"` tagged as
a manager by one row and as a client by another row. -/
def mixedTagEnv : ListEnv := fun m =>
  if m = "100" then some [("200", true), ("200", false)] else some []

/-- An environment in which `"200"` only ever appears tagged manager. -/
def mgrOnlyEnv : ListEnv := fun m =>
  if m = "100" then some [("200", true)] else some []

/-- An environment in which the root `"100"` is reported as somebody's
child with a client tag. -/
def rootChildEnv : ListEnv := fun m =>
  if m = "100" then some [("100", false)] else some []

/-- A diamond hierarchy: managers `"200"` and `"300"` both report the
same sub-manager `"400"` as a child; `"400"` has the client `"500"`. -/
def diamond : Hierarchy :=
  { nodes := ["100", "200", "300", "400", "500"]
    isMgr := fun a => a == "100" || a == "200" || a == "300" || a == "400"
    children := fun a =>
      if a = "100" then ["200", "300"]
      else if a = "200" then ["400"]
      else if a = "300" then ["400"]
      else if a = "400" then ["500"]
      else [] }

/-- Scenario 4 mock: two `click_view` rows for customer `"888"` dated
`"2024-01-15"`. -/
def scenario4Rows : List ClickRow :=
  [ { gclid := "g1", campaign_id := 11, ad_group_id := 21, segments_date := "2024-01-15" }
  , { gclid := "g2", campaign_id := 12, ad_group_id := 22, segments_date := "2024-01-15" } ]

/-- Scenario 4 reporting service: returns the two rows. -/
def scenario4Search : SearchEnv := fun _ _ => .success scenario4Rows

/-- Scenario 3 reporting service: every query fails with
`USER_PERMISSION_DENIED`. -/
def deniedSearch : SearchEnv := fun _ _ =>
  .failure { permission_denied := true, message := "denied" } []

/-- A reporting service failing with a non-authorization error. -/
def otherErrorSearch : SearchEnv := fun _ _ =>
  .failure { permission_denied := false, message := "internal error" } []

/-- A reporting service returning zero rows for every query. -/
def emptySearch : SearchEnv := fun _ _ => .success []

/-- A fully populated credential configuration. -/
def fullCreds : Config := fun k =>
  if k = "developer_token" then some "devtok"
  else if k = "client_id" then some "cid"
  else if k = "client_secret" then some "sec"
  else if k = "refresh_token" then some "ref"
  else if k = "login_customer_id" then some "123-456"
  else none

/-- `fullCreds` with an empty `developer_token`, as `GOOGLE_ADS_CONFIG`
produces when `GOOGLE_ADS_DEVELOPER_TOKEN` is unset. -/
def emptyTokenCreds : Config := fun k =>
  if k = "developer_token" then some "" else fullCreds k

/-- The BFS termination measure on a node carrier `U`: pending queue
entries plus twice the nodes not yet visited. -/
def measure (U : Finset String) (st : TraversalState) : Nat :=
  st.queue.length + 2 * (U \ st.visited).card

/-- Counting invariant: each account is dequeued (`expanded`) or
pending (`queue`) a combined number of times equal to `1` exactly when
it has entered the visited set. -/
def CountInv (st : TraversalState) : Prop :=
  ∀ x, st.expanded.count x + st.queue.count x = (if x ∈ st.visited then 1 else 0)

/-- Every queue entry lies in the hierarchy's node carrier. -/
def QueueInNodes (H : Hierarchy) (st : TraversalState) : Prop :=
  ∀ x ∈ st.queue, x ∈ H.nodes

/-- Soundness invariant: every recorded client was reported with a
client tag in the listing of some already-expanded manager. -/
def ClientTagged (env : ListEnv) (st : TraversalState) : Prop :=
  ∀ t ∈ st.clients, ∃ m rows, m ∈ st.expanded ∧ env m = some rows ∧ (t, false) ∈ rows

/-- The BFS correctness invariant over a hierarchy. -/
structure BfsInv (H : Hierarchy) (root : String) (st : TraversalState) : Prop where
  root_vis : root ∈ st.visited
  queue_vis : ∀ x ∈ st.queue, x ∈ st.visited
  vis_reach : ∀ x ∈ st.visited, MgrReaches H root x
  vis_nodes : ∀ x ∈ st.visited, x ∈ H.nodes
  cl_sound : ∀ t ∈ st.clients,
    H.isMgr t = false ∧ ∃ m, MgrReaches H root m ∧ t ∈ H.children m
  closed_done : ∀ m ∈ st.visited, m ∉ st.queue →
    ∀ c ∈ H.children m,
      (H.isMgr c = true → c ∈ st.visited) ∧ (H.isMgr c = false → c ∈ st.clients)

/-- The dequeued intermediate state of one loop iteration. -/
def dequeued (st : TraversalState) (m : String) (rest : List String) : TraversalState :=
  { st with queue := rest, expanded := st.expanded ++ [m] }

/-! ## Lemmas: one-row processing -/

lemma processRow_expanded (st : TraversalState) (row : String × Bool) :
    (processRow st row).expanded = st.expanded := by
  unfold processRow
  split
  · split <;> rfl
  · rfl

lemma processRow_visited_mono (st : TraversalState) (row : String × Bool) :
    st.visited ⊆ (processRow st row).visited := by
  unfold processRow
  split
  · split
    · exact Finset.Subset.refl _
    · exact Finset.subset_insert _ _
  · exact Finset.Subset.refl _

lemma processRow_clients_mono (st : TraversalState) (row : String × Bool) :
    st.clients ⊆ (processRow st row).clients := by
  unfold processRow
  split
  · split <;> exact Finset.Subset.refl _
  · exact Finset.subset_insert _ _

lemma processRow_queue_mono (st : TraversalState) (row : String × Bool)
    (x : String) (hx : x ∈ st.queue) : x ∈ (processRow st row).queue := by
  unfold processRow
  split
  · split
    · exact hx
    · exact List.mem_append_left _ hx
  · exact hx

lemma processRow_visited_src (st : TraversalState) (row : String × Bool)
    (x : String) (hx : x ∈ (processRow st row).visited) :
    x ∈ st.visited ∨ row = (x, true) := by
  unfold processRow at hx
  rcases row with ⟨a, b⟩
  by_cases hb : b = true
  · subst hb
    simp only [if_true] at hx
    by_cases hm : a ∈ st.visited
    · simp only [if_pos hm] at hx
      exact Or.inl hx
    · simp only [if_neg hm] at hx
      rcases Finset.mem_insert.mp hx with h | h
      · exact Or.inr (by rw [h])
      · exact Or.inl h
  · simp only [if_neg hb] at hx
    exact Or.inl hx

lemma processRow_clients_src (st : TraversalState) (row : String × Bool)
    (x : String) (hx : x ∈ (processRow st row).clients) :
    x ∈ st.clients ∨ row = (x, false) := by
  unfold processRow at hx
  rcases row with ⟨a, b⟩
  by_cases hb : b = true
  · subst hb
    simp only [if_true] at hx
    by_cases hm : a ∈ st.visited
    · simp only [if_pos hm] at hx
      exact Or.inl hx
    · simp only [if_neg hm] at hx
      exact Or.inl hx
  · simp only [if_neg hb] at hx
    rcases Finset.mem_insert.mp hx with h | h
    · refine Or.inr ?_
      have : b = false := Bool.eq_false_iff.mpr hb
      rw [h, this]
    · exact Or.inl h

lemma processRow_queue_src (st : TraversalState) (row : String × Bool)
    (x : String) (hx : x ∈ (processRow st row).queue) :
    x ∈ st.queue ∨ row = (x, true) := by
  unfold processRow at hx
  rcases row with ⟨a, b⟩
  by_cases hb : b = true
  · subst hb
    simp only [if_true] at hx
    by_cases hm : a ∈ st.visited
    · simp only [if_pos hm] at hx
      exact Or.inl hx
    · simp only [if_neg hm] at hx
      rcases List.mem_append.mp hx with h | h
      · exact Or.inl h
      · rcases List.mem_singleton.mp h with rfl
        exact Or.inr rfl
  · simp only [if_neg hb] at hx
    exact Or.inl hx

lemma processRow_handled (st : TraversalState) (row : String × Bool) :
    (row.2 = true → row.1 ∈ (processRow st row).visited) ∧
    (row.2 = false → row.1 ∈ (processRow st row).clients) := by
  unfold processRow
  rcases row with ⟨a, b⟩
  constructor
  · intro hb
    subst hb
    simp only [if_true]
    by_cases hm : a ∈ st.visited
    · simp only [if_pos hm]
      exact hm
    · simp only [if_neg hm]
      exact Finset.mem_insert_self _ _
  · intro hb
    subst hb
    simp only [Bool.false_eq_true, if_false]
    exact Finset.mem_insert_self _ _

lemma processRow_queue_vis (st : TraversalState) (row : String × Bool)
    (h : ∀ x ∈ st.queue, x ∈ st.visited) :
    ∀ x ∈ (processRow st row).queue, x ∈ (processRow st row).visited := by
  intro x hx
  rcases processRow_queue_src st row x hx with hq | hr
  · exact processRow_visited_mono st row (h x hq)
  · have h2 := (processRow_handled st row).1
    rw [hr] at h2 ⊢
    exact h2 rfl

lemma processRow_stable (st : TraversalState) (row : String × Bool)
    (m : String) (hv : m ∈ st.visited) (hq : m ∉ st.queue) :
    m ∈ (processRow st row).visited ∧ m ∉ (processRow st row).queue := by
  refine ⟨processRow_visited_mono st row hv, ?_⟩
  intro hmem
  rcases processRow_queue_src st row m hmem with h | h
  · exact hq h
  · rw [h] at hmem
    simp only [processRow, hv, if_pos, if_true] at hmem
    exact hq hmem

lemma processRow_count (st : TraversalState) (row : String × Bool)
    (h : CountInv st) : CountInv (processRow st row) := by
  intro x
  unfold processRow
  rcases row with ⟨a, b⟩
  by_cases hb : b = true
  · subst hb
    simp only [if_true]
    by_cases hm : a ∈ st.visited
    · simp only [if_pos hm]
      exact h x
    · simp only [if_neg hm]
      have hx := h x
      rcases eq_or_ne x a with rfl | hxa
      · simp only [if_neg hm] at hx
        simp only [Finset.mem_insert_self, if_pos]
        simp only [List.count_append, List.count_cons, List.count_nil,
          beq_self_eq_true, if_pos] at hx ⊢
        omega
      · have hmem : x ∈ insert a st.visited ↔ x ∈ st.visited := by
          simp [Finset.mem_insert, hxa]
        simp only [List.count_append, List.count_cons, List.count_nil] at hx ⊢
        have hne : (a == x) = false := beq_eq_false_iff_ne.mpr (Ne.symm hxa)
        simp only [hne, Bool.false_eq_true, if_false, hmem]
        omega
  · simp only [if_neg hb]
    exact h x

lemma processRow_new_vis_queue (st : TraversalState) (row : String × Bool)
    (x : String) (hx : x ∈ (processRow st row).visited) :
    x ∈ st.visited ∨ x ∈ (processRow st row).queue := by
  unfold processRow at hx ⊢
  rcases row with ⟨a, b⟩
  by_cases hb : b = true
  · subst hb
    simp only [if_true] at hx ⊢
    by_cases hm : a ∈ st.visited
    · simp only [if_pos hm] at hx
      exact Or.inl hx
    · simp only [if_neg hm] at hx ⊢
      rcases Finset.mem_insert.mp hx with h | h
      · subst h
        exact Or.inr (List.mem_append_right _ (List.mem_singleton.mpr rfl))
      · exact Or.inl h
  · simp only [if_neg hb] at hx
    exact Or.inl hx

/-! ## Lemmas: folding a whole response -/

lemma foldl_expanded (rows : List (String × Bool)) :
    ∀ st : TraversalState, (rows.foldl processRow st).expanded = st.expanded := by
  induction rows with
  | nil => intro st; rfl
  | cons r rs ih =>
      intro st
      simp only [List.foldl_cons]
      rw [ih, processRow_expanded]

lemma foldl_visited_mono (rows : List (String × Bool)) :
    ∀ st : TraversalState, st.visited ⊆ (rows.foldl processRow st).visited := by
  induction rows with
  | nil => intro st; exact Finset.Subset.refl _
  | cons r rs ih =>
      intro st
      simp only [List.foldl_cons]
      exact (processRow_visited_mono st r).trans (ih _)

lemma foldl_clients_mono (rows : List (String × Bool)) :
    ∀ st : TraversalState, st.clients ⊆ (rows.foldl processRow st).clients := by
  induction rows with
  | nil => intro st; exact Finset.Subset.refl _
  | cons r rs ih =>
      intro st
      simp only [List.foldl_cons]
      exact (processRow_clients_mono st r).trans (ih _)

lemma foldl_queue_mono (rows : List (String × Bool)) :
    ∀ (st : TraversalState) (x : String),
      x ∈ st.queue → x ∈ (rows.foldl processRow st).queue := by
  induction rows with
  | nil => intro st x hx; exact hx
  | cons r rs ih =>
      intro st x hx
      simp only [List.foldl_cons]
      exact ih _ x (processRow_queue_mono st r x hx)

lemma foldl_visited_src (rows : List (String × Bool)) :
    ∀ (st : TraversalState) (x : String),
      x ∈ (rows.foldl processRow st).visited →
      x ∈ st.visited ∨ (x, true) ∈ rows := by
  induction rows with
  | nil => intro st x hx; exact Or.inl hx
  | cons r rs ih =>
      intro st x hx
      simp only [List.foldl_cons] at hx
      rcases ih _ x hx with h | h
      · rcases processRow_visited_src st r x h with h2 | h2
        · exact Or.inl h2
        · exact Or.inr (h2 ▸ List.mem_cons_self _ _)
      · exact Or.inr (List.mem_cons_of_mem _ h)

lemma foldl_clients_src (rows : List (String × Bool)) :
    ∀ (st : TraversalState) (x : String),
      x ∈ (rows.foldl processRow st).clients →
      x ∈ st.clients ∨ (x, false) ∈ rows := by
  induction rows with
  | nil => intro st x hx; exact Or.inl hx
  | cons r rs ih =>
      intro st x hx
      simp only [List.foldl_cons] at hx
      rcases ih _ x hx with h | h
      · rcases processRow_clients_src st r x h with h2 | h2
        · exact Or.inl h2
        · exact Or.inr (h2 ▸ List.mem_cons_self _ _)
      · exact Or.inr (List.mem_cons_of_mem _ h)

lemma foldl_queue_src (rows : List (String × Bool)) :
    ∀ (st : TraversalState) (x : String),
      x ∈ (rows.foldl processRow st).queue →
      x ∈ st.queue ∨ (x, true) ∈ rows := by
  induction rows with
  | nil => intro st x hx; exact Or.inl hx
  | cons r rs ih =>
      intro st x hx
      simp only [List.foldl_cons] at hx
      rcases ih _ x hx with h | h
      · rcases processRow_queue_src st r x h with h2 | h2
        · exact Or.inl h2
        · exact Or.inr (h2 ▸ List.mem_cons_self _ _)
      · exact Or.inr (List.mem_cons_of_mem _ h)

lemma foldl_queue_vis (rows : List (String × Bool)) :
    ∀ st : TraversalState, (∀ x ∈ st.queue, x ∈ st.visited) →
      ∀ x ∈ (rows.foldl processRow st).queue, x ∈ (rows.foldl processRow st).visited := by
  induction rows with
  | nil => intro st h; exact h
  | cons r rs ih =>
      intro st h
      simp only [List.foldl_cons]
      exact ih _ (processRow_queue_vis st r h)

lemma foldl_stable (rows : List (String × Bool)) :
    ∀ (st : TraversalState) (m : String), m ∈ st.visited → m ∉ st.queue →
      m ∈ (rows.foldl processRow st).visited ∧ m ∉ (rows.foldl processRow st).queue := by
  induction rows with
  | nil => intro st m hv hq; exact ⟨hv, hq⟩
  | cons r rs ih =>
      intro st m hv hq
      simp only [List.foldl_cons]
      rcases processRow_stable st r m hv hq with ⟨hv2, hq2⟩
      exact ih _ m hv2 hq2

lemma foldl_new_vis_queue (rows : List (String × Bool)) :
    ∀ (st : TraversalState) (x : String),
      x ∈ (rows.foldl processRow st).visited →
      x ∈ st.visited ∨ x ∈ (rows.foldl processRow st).queue := by
  induction rows with
  | nil => intro st x hx; exact Or.inl hx
  | cons r rs ih =>
      intro st x hx
      simp only [List.foldl_cons] at hx ⊢
      rcases ih _ x hx with h | h
      · rcases processRow_new_vis_queue st r x h with h2 | h2
        · exact Or.inl h2
        · exact Or.inr (foldl_queue_mono rs _ x h2)
      · exact Or.inr h

lemma foldl_handled (rows : List (String × Bool)) :
    ∀ (st : TraversalState) (r : String × Bool), r ∈ rows →
      (r.2 = true → r.1 ∈ (rows.foldl processRow st).visited) ∧
      (r.2 = false → r.1 ∈ (rows.foldl processRow st).clients) := by
  induction rows with
  | nil => intro st r hr; exact absurd hr (List.not_mem_nil _)
  | cons r0 rs ih =>
      intro st r hr
      simp only [List.foldl_cons]
      rcases List.mem_cons.mp hr with rfl | hmem
      · constructor
        · intro h2
          exact foldl_visited_mono rs _ ((processRow_handled st r).1 h2)
        · intro h2
          exact foldl_clients_mono rs _ ((processRow_handled st r).2 h2)
      · exact ih _ r hmem

lemma foldl_count (rows : List (String × Bool)) :
    ∀ st : TraversalState, CountInv st → CountInv (rows.foldl processRow st) := by
  induction rows with
  | nil => intro st h; exact h
  | cons r rs ih =>
      intro st h
      simp only [List.foldl_cons]
      exact ih _ (processRow_count st r h)

/-! ## Lemmas: one loop iteration and the whole loop -/

lemma stepTraversal_nil (env : ListEnv) (st : TraversalState) (h : st.queue = []) :
    stepTraversal env st = st := by
  simp only [stepTraversal, h]

lemma stepTraversal_cons (env : ListEnv) (st : TraversalState) (m : String)
    (rest : List String) (hq : st.queue = m :: rest) :
    stepTraversal env st =
      match env m with
      | none => dequeued st m rest
      | some rows => rows.foldl processRow (dequeued st m rest) := by
  simp only [stepTraversal, hq, dequeued]

lemma dequeued_count (st : TraversalState) (m : String) (rest : List String)
    (hq : st.queue = m :: rest) (h : CountInv st) : CountInv (dequeued st m rest) := by
  intro x
  have hx := h x
  rw [hq] at hx
  simp only [dequeued, List.count_append, List.count_cons, List.count_nil] at hx ⊢
  omega

lemma stepTraversal_count (env : ListEnv) (st : TraversalState)
    (h : CountInv st) : CountInv (stepTraversal env st) := by
  rcases hq : st.queue with _ | ⟨m, rest⟩
  · rw [stepTraversal_nil env st hq]
    exact h
  · rw [stepTraversal_cons env st m rest hq]
    have h1 := dequeued_count st m rest hq h
    cases henv : env m with
    | none => exact h1
    | some rows => exact foldl_count rows _ h1

lemma runTraversal_count (env : ListEnv) (fuel : Nat) :
    ∀ st : TraversalState, CountInv st → CountInv (runTraversal env fuel st) := by
  induction fuel with
  | zero => intro st h; exact h
  | succ n ih =>
      intro st h
      unfold runTraversal
      split
      · exact h
      · exact ih _ (stepTraversal_count env st h)

lemma expanded_prefix_step (env : ListEnv) (st : TraversalState) :
    ∀ x ∈ st.expanded, x ∈ (stepTraversal env st).expanded := by
  intro x hx
  rcases hq : st.queue with _ | ⟨m, rest⟩
  · rw [stepTraversal_nil env st hq]; exact hx
  · rw [stepTraversal_cons env st m rest hq]
    cases henv : env m with
    | none => exact List.mem_append_left _ hx
    | some rows =>
        rw [foldl_expanded]
        exact List.mem_append_left _ hx

lemma clientTagged_step (env : ListEnv) (st : TraversalState)
    (h : ClientTagged env st) : ClientTagged env (stepTraversal env st) := by
  intro t ht
  rcases hq : st.queue with _ | ⟨m, rest⟩
  · rw [stepTraversal_nil env st hq] at ht
    rcases h t ht with ⟨m0, rows0, hm0, henv0, hrow0⟩
    exact ⟨m0, rows0, by rw [stepTraversal_nil env st hq]; exact hm0, henv0, hrow0⟩
  · rw [stepTraversal_cons env st m rest hq] at ht ⊢
    cases henv : env m with
    | none =>
        rw [henv] at ht
        rcases h t ht with ⟨m0, rows0, hm0, henv0, hrow0⟩
        exact ⟨m0, rows0, List.mem_append_left _ hm0, henv0, hrow0⟩
    | some rows =>
        rw [henv] at ht
        rcases foldl_clients_src rows _ t ht with h2 | h2
        · rcases h t h2 with ⟨m0, rows0, hm0, henv0, hrow0⟩
          refine ⟨m0, rows0, ?_, henv0, hrow0⟩
          rw [foldl_expanded]
          exact List.mem_append_left _ hm0
        · refine ⟨m, rows, ?_, henv, h2⟩
          rw [foldl_expanded]
          exact List.mem_append_right _ (List.mem_singleton.mpr rfl)

lemma clientTagged_run (env : ListEnv) (fuel : Nat) :
    ∀ st : TraversalState, ClientTagged env st →
      ClientTagged env (runTraversal env fuel st) := by
  induction fuel with
  | zero => intro st h; exact h
  | succ n ih =>
      intro st h
      unfold runTraversal
      split
      · exact h
      · exact ih _ (clientTagged_step env st h)

/-! ## Lemmas: the BFS invariant -/

lemma bfsInv_init (H : Hierarchy) (root : String) (hroot : root ∈ H.nodes) :
    BfsInv H root (initState root) := by
  refine ⟨?_, ?_, ?_, ?_, ?_, ?_⟩
  · exact Finset.mem_singleton_self root
  · intro x hx
    rcases List.mem_singleton.mp hx with rfl
    exact Finset.mem_singleton_self x
  · intro x hx
    rcases Finset.mem_singleton.mp hx with rfl
    exact Relation.ReflTransGen.refl
  · intro x hx
    rcases Finset.mem_singleton.mp hx with rfl
    exact hroot
  · intro t ht
    exact absurd ht (Finset.not_mem_empty t)
  · intro m hm hq
    rcases Finset.mem_singleton.mp hm with rfl
    exact absurd (List.mem_singleton.mpr rfl) hq

lemma bfsInv_step (H : Hierarchy) (root : String)
    (hcl : ∀ a ∈ H.nodes, ∀ c ∈ H.children a, c ∈ H.nodes)
    (st : TraversalState) (hI : BfsInv H root st) :
    BfsInv H root (stepTraversal (envOf H) st) := by
  rcases hq : st.queue with _ | ⟨m, rest⟩
  · rw [stepTraversal_nil _ st hq]
    exact hI
  · rw [stepTraversal_cons _ st m rest hq]
    have hmv : m ∈ st.visited :=
      hI.queue_vis m (by rw [hq]; exact List.mem_cons_self _ _)
    have hmreach : MgrReaches H root m := hI.vis_reach m hmv
    have hmnodes : m ∈ H.nodes := hI.vis_nodes m hmv
    show BfsInv H root
      (((H.children m).map (fun c => (c, H.isMgr c))).foldl processRow (dequeued st m rest))
    set rows := (H.children m).map (fun c => (c, H.isMgr c)) with hrows
    set st1 := dequeued st m rest with hst1
    have hst1v : st1.visited = st.visited := rfl
    have hst1c : st1.clients = st.clients := rfl
    have hst1q : st1.queue = rest := rfl
    have hrow_mgr : ∀ x : String, (x, true) ∈ rows →
        x ∈ H.children m ∧ H.isMgr x = true := by
      intro x hx
      rcases List.mem_map.mp hx with ⟨c, hc, hcx⟩
      rcases Prod.mk.inj hcx with ⟨h1, h2⟩
      exact ⟨h1 ▸ hc, h1 ▸ h2⟩
    have hrow_cl : ∀ x : String, (x, false) ∈ rows →
        x ∈ H.children m ∧ H.isMgr x = false := by
      intro x hx
      rcases List.mem_map.mp hx with ⟨c, hc, hcx⟩
      rcases Prod.mk.inj hcx with ⟨h1, h2⟩
      exact ⟨h1 ▸ hc, h1 ▸ h2⟩
    refine ⟨?_, ?_, ?_, ?_, ?_, ?_⟩
    · exact foldl_visited_mono rows st1 (hst1v ▸ hI.root_vis)
    · refine foldl_queue_vis rows st1 ?_
      intro x hx
      rw [hst1q] at hx
      exact hst1v ▸ hI.queue_vis x (by rw [hq]; exact List.mem_cons_of_mem _ hx)
    · intro x hx
      rcases foldl_visited_src rows st1 x hx with h | h
      · exact hI.vis_reach x (hst1v ▸ h)
      · rcases hrow_mgr x h with ⟨hc, hm2⟩
        exact Relation.ReflTransGen.tail hmreach ⟨hc, hm2⟩
    · intro x hx
      rcases foldl_visited_src rows st1 x hx with h | h
      · exact hI.vis_nodes x (hst1v ▸ h)
      · exact hcl m hmnodes x (hrow_mgr x h).1
    · intro t ht
      rcases foldl_clients_src rows st1 t ht with h | h
      · exact hI.cl_sound t (hst1c ▸ h)
      · rcases hrow_cl t h with ⟨hc, hm2⟩
        exact ⟨hm2, m, hmreach, hc⟩
    · intro m2 hm2 hq2 c hc
      by_cases hold : m2 ∈ st.visited
      · by_cases holdq : m2 ∈ st.queue
        · rw [hq] at holdq
          rcases List.mem_cons.mp holdq with rfl | hrest
          · have hcrow : (c, H.isMgr c) ∈ rows :=
              List.mem_map_of_mem (fun c => (c, H.isMgr c)) hc
            have hh := foldl_handled rows st1 (c, H.isMgr c) hcrow
            exact ⟨fun h2 => hh.1 h2, fun h2 => hh.2 h2⟩
          · exact absurd (foldl_queue_mono rows st1 m2 (hst1q ▸ hrest)) hq2
        · have hh := hI.closed_done m2 hold holdq c hc
          exact ⟨fun h2 => foldl_visited_mono rows st1 (hst1v ▸ hh.1 h2),
                 fun h2 => foldl_clients_mono rows st1 (hst1c ▸ hh.2 h2)⟩
      · rcases foldl_new_vis_queue rows st1 m2 hm2 with h | h
        · exact absurd (hst1v ▸ h) hold
        · exact absurd h hq2

lemma bfsInv_run (H : Hierarchy) (root : String)
    (hcl : ∀ a ∈ H.nodes, ∀ c ∈ H.children a, c ∈ H.nodes) (fuel : Nat) :
    ∀ st : TraversalState, BfsInv H root st →
      BfsInv H root (runTraversal (envOf H) fuel st) := by
  induction fuel with
  | zero => intro st h; exact h
  | succ n ih =>
      intro st h
      unfold runTraversal
      split
      · exact h
      · exact ih _ (bfsInv_step H root hcl st h)

/-! ## Lemmas: termination of the loop -/

lemma processRow_measure (U : Finset String) (st : TraversalState)
    (row : String × Bool) (hrow : row.1 ∈ U) :
    measure U (processRow st row) ≤ measure U st := by
  unfold processRow measure
  rcases row with ⟨a, b⟩
  by_cases hb : b = true
  · subst hb
    simp only [if_true]
    by_cases hm : a ∈ st.visited
    · simp only [if_pos hm]
      exact Nat.le_refl _
    · simp only [if_neg hm]
      have hmem : a ∈ U \ st.visited := Finset.mem_sdiff.mpr ⟨hrow, hm⟩
      have hcard : (U \ insert a st.visited).card = (U \ st.visited).card - 1 := by
        rw [Finset.sdiff_insert]
        exact Finset.card_erase_of_mem hmem
      have hpos : 1 ≤ (U \ st.visited).card := Finset.card_pos.mpr ⟨a, hmem⟩
      simp only [List.length_append, List.length_cons, List.length_nil, hcard]
      omega
  · simp only [if_neg hb]
    exact Nat.le_refl _

lemma foldl_measure (U : Finset String) (rows : List (String × Bool)) :
    ∀ st : TraversalState, (∀ r ∈ rows, r.1 ∈ U) →
      measure U (rows.foldl processRow st) ≤ measure U st := by
  induction rows with
  | nil => intro st _; exact Nat.le_refl _
  | cons r rs ih =>
      intro st h
      simp only [List.foldl_cons]
      exact (ih _ (fun r2 h2 => h r2 (List.mem_cons_of_mem _ h2))).trans
        (processRow_measure U st r (h r (List.mem_cons_self _ _)))

lemma queueInNodes_step (H : Hierarchy)
    (hcl : ∀ a ∈ H.nodes, ∀ c ∈ H.children a, c ∈ H.nodes)
    (st : TraversalState) (hQ : QueueInNodes H st) :
    QueueInNodes H (stepTraversal (envOf H) st) := by
  rcases hq : st.queue with _ | ⟨m, rest⟩
  · rw [stepTraversal_nil _ st hq]
    exact hQ
  · rw [stepTraversal_cons _ st m rest hq]
    have hmn : m ∈ H.nodes := hQ m (by rw [hq]; exact List.mem_cons_self _ _)
    show QueueInNodes H
      (((H.children m).map (fun c => (c, H.isMgr c))).foldl processRow (dequeued st m rest))
    intro x hx
    rcases foldl_queue_src _ _ x hx with h | h
    · exact hQ x (by rw [hq]; exact List.mem_cons_of_mem _ h)
    · rcases List.mem_map.mp h with ⟨c, hc, hcx⟩
      rcases Prod.mk.inj hcx with ⟨h1, _⟩
      exact hcl m hmn x (h1 ▸ hc)

lemma stepTraversal_measure (H : Hierarchy)
    (hcl : ∀ a ∈ H.nodes, ∀ c ∈ H.children a, c ∈ H.nodes)
    (st : TraversalState) (hQ : QueueInNodes H st)
    (m : String) (rest : List String) (hq : st.queue = m :: rest) :
    measure H.nodes.toFinset (stepTraversal (envOf H) st) <
      measure H.nodes.toFinset st := by
  rw [stepTraversal_cons _ st m rest hq]
  have hmn : m ∈ H.nodes := hQ m (by rw [hq]; exact List.mem_cons_self _ _)
  have hlt : measure H.nodes.toFinset (dequeued st m rest) <
      measure H.nodes.toFinset st := by
    unfold measure dequeued
    simp only [hq, List.length_cons]
    omega
  show measure H.nodes.toFinset
      (((H.children m).map (fun c => (c, H.isMgr c))).foldl processRow (dequeued st m rest)) <
    measure H.nodes.toFinset st
  refine lt_of_le_of_lt ?_ hlt
  refine foldl_measure _ _ _ ?_
  intro r hr
  rcases List.mem_map.mp hr with ⟨c, hc, hcx⟩
  rw [← hcx]
  exact List.mem_toFinset.mpr (hcl m hmn c hc)

lemma runTraversal_drains (H : Hierarchy)
    (hcl : ∀ a ∈ H.nodes, ∀ c ∈ H.children a, c ∈ H.nodes) :
    ∀ (fuel : Nat) (st : TraversalState), QueueInNodes H st →
      measure H.nodes.toFinset st ≤ fuel →
      (runTraversal (envOf H) fuel st).queue = [] := by
  intro fuel
  induction fuel with
  | zero =>
      intro st _ hm
      have : st.queue.length = 0 := by
        unfold measure at hm
        omega
      exact List.length_eq_zero.mp this
  | succ n ih =>
      intro st hQ hm
      unfold runTraversal
      split
      · assumption
      · rename_i hne
        rcases hq : st.queue with _ | ⟨m, rest⟩
        · exact absurd hq hne
        · refine ih _ (queueInNodes_step H hcl st hQ) ?_
          have := stepTraversal_measure H hcl st hQ m rest hq
          omega

/-! ## Lemmas: the final traversal state -/

lemma initState_queueInNodes (H : Hierarchy) (root : String) (hroot : root ∈ H.nodes) :
    QueueInNodes H (initState root) := by
  intro x hx
  rcases List.mem_singleton.mp hx with rfl
  exact hroot

lemma resolveState_queue_nil (H : Hierarchy) (root : String) (hC : Closed H root) :
    (resolveState H root).queue = [] := by
  refine runTraversal_drains H hC.2 (fuelFor H) (initState root)
    (initState_queueInNodes H root hC.1) ?_
  have h1 : (H.nodes.toFinset \ ({root} : Finset String)).card ≤ H.nodes.toFinset.card :=
    Finset.card_le_card (Finset.sdiff_subset)
  have h2 : H.nodes.toFinset.card ≤ H.nodes.length := H.nodes.toFinset_card_le
  unfold measure initState fuelFor
  simp only [List.length_cons, List.length_nil]
  omega

lemma resolveState_inv (H : Hierarchy) (root : String) (hC : Closed H root) :
    BfsInv H root (resolveState H root) :=
  bfsInv_run H root hC.2 (fuelFor H) (initState root) (bfsInv_init H root hC.1)

lemma mgrReaches_visited (H : Hierarchy) (root : String)
    (st : TraversalState) (hI : BfsInv H root st) (hnil : st.queue = []) :
    ∀ x, MgrReaches H root x → x ∈ st.visited := by
  intro x hx
  induction hx with
  | refl => exact hI.root_vis
  | tail _ hbc ih =>
      rcases hbc with ⟨hedge, hmgr⟩
      exact (hI.closed_done _ ih (by rw [hnil]; exact List.not_mem_nil _) _ hedge).1 hmgr

/-- The characterization of `resolve` over a closed hierarchy: exactly
the client-tagged children of manager-reachable accounts. -/
lemma resolve_char (H : Hierarchy) (root : String) (hC : Closed H root) :
    ∀ t, t ∈ resolve H root ↔
      (H.isMgr t = false ∧ ∃ m, MgrReaches H root m ∧ t ∈ H.children m) := by
  have hI := resolveState_inv H root hC
  have hnil := resolveState_queue_nil H root hC
  intro t
  constructor
  · intro ht
    exact hI.cl_sound t ht
  · rintro ⟨hmgr, m, hr, hc⟩
    have hmv := mgrReaches_visited H root _ hI hnil m hr
    exact (hI.closed_done m hmv (by rw [hnil]; exact List.not_mem_nil _) t hc).2 hmgr

lemma reaches_of_mgrReaches (H : Hierarchy) (root x : String)
    (h : MgrReaches H root x) : Reaches H root x :=
  Relation.ReflTransGen.mono (fun _ _ hab => hab.1) h

lemma mgrReaches_of_reaches (H : Hierarchy) (root : String)
    (hleaf : ClientsTerminal H) :
    ∀ x, Reaches H root x → H.isMgr x = true → MgrReaches H root x := by
  intro x hx
  induction hx with
  | refl => intro _; exact Relation.ReflTransGen.refl
  | tail _ hbc ih =>
      intro hmgr
      rename_i b c _
      have hbmgr : H.isMgr b = true := by
        cases hB : H.isMgr b with
        | true => rfl
        | false =>
            have hnil := hleaf b hB
            unfold Edge at hbc
            rw [hnil] at hbc
            exact absurd hbc (List.not_mem_nil _)
      exact Relation.ReflTransGen.tail (ih hbmgr) ⟨hbc, hmgr⟩

lemma countInv_init (root : String) : CountInv (initState root) := by
  intro x
  show ([] : List String).count x + ([root].count x) =
    if x ∈ ({root} : Finset String) then 1 else 0
  rcases eq_or_ne x root with rfl | h
  · simp
  · have hne : (root == x) = false := beq_eq_false_iff_ne.mpr (Ne.symm h)
    simp [List.count_cons, hne, Finset.mem_singleton, h]

lemma clientTagged_init (env : ListEnv) (root : String) :
    ClientTagged env (initState root) := by
  intro t ht
  exact absurd ht (Finset.not_mem_empty t)

/-! ## Claim theorems -/

/-- C1: For every hierarchy in which the manager-account graph is
acyclic (root a manager, clients terminal, node set closed under
children), `resolve(root)` — `get_full_account_hierarchy` run over the
hierarchy's listing service — returns exactly the set of terminal
(non-manager) account IDs transitively reachable from the root. -/
theorem resolve_exactly_terminal_descendants
    (H : Hierarchy) (root : String)
    (hclosed : Closed H root) (hroot : H.isMgr root = true)
    (hleaf : ClientsTerminal H) (_hacyc : AcyclicMgr H) :
    ∀ t, t ∈ resolve H root ↔ (Reaches H root t ∧ H.isMgr t = false) := by
  intro t
  rw [resolve_char H root hclosed t]
  constructor
  · rintro ⟨hmgr, m, hr, hc⟩
    exact ⟨Relation.ReflTransGen.tail (reaches_of_mgrReaches H root m hr) hc, hmgr⟩
  · rintro ⟨hre, hmgr⟩
    refine ⟨hmgr, ?_⟩
    rcases Relation.ReflTransGen.cases_tail hre with rfl | ⟨c, hrc, hedge⟩
    · rw [hroot] at hmgr
      cases hmgr
    · have hcmgr : H.isMgr c = true := by
        cases hB : H.isMgr c with
        | true => rfl
        | false =>
            have hnil := hleaf c hB
            unfold Edge at hedge
            rw [hnil] at hedge
            exact absurd hedge (List.not_mem_nil _)
      exact ⟨c, mgrReaches_of_reaches H root hleaf c hrc hcmgr, hedge⟩

/-- Witness for C1 at the spec's scenario 1: root manager `"100"` with
children [manager `"200"`, client `"300"`], `"200"` with children
[client `"400"`, client `"500"`]; the result is `{"300","400","500"}`. -/
theorem resolve_exactly_terminal_descendants_witness :
    Closed scenario1 "100" ∧ scenario1.isMgr "100" = true ∧
    ClientsTerminal scenario1 ∧ AcyclicMgr scenario1 ∧
    resolve scenario1 "100" = {"300", "400", "500"} ∧
    (∀ t, t ∈ resolve scenario1 "100" ↔
      (Reaches scenario1 "100" t ∧ scenario1.isMgr t = false)) := by
  have hclosed : Closed scenario1 "100" := by decide
  have hroot : scenario1.isMgr "100" = true := by decide
  have hleaf : ClientsTerminal scenario1 := by
    intro a ha
    have h1 : a ≠ "100" := by
      intro h
      subst h
      exact absurd ha (by decide)
    have h2 : a ≠ "200" := by
      intro h
      subst h
      exact absurd ha (by decide)
    show (if a = "100" then ["200", "300"] else if a = "200" then ["400", "500"] else []) = []
    rw [if_neg h1, if_neg h2]
  have hacyc : AcyclicMgr scenario1 := by
    refine ⟨fun a => if a = "200" then 0 else 1, ?_⟩
    intro a b hma hmb hedge
    by_cases ha1 : a = "100"
    · subst ha1
      have hb : b = "200" ∨ b = "300" := by
        have : b ∈ ["200", "300"] := by
          simpa [Edge, scenario1] using hedge
        simpa using this
      rcases hb with rfl | rfl
      · decide
      · exact absurd hmb (by decide)
    · by_cases ha2 : a = "200"
      · subst ha2
        have hb : b = "400" ∨ b = "500" := by
          have : b ∈ ["400", "500"] := by
            simpa [Edge, scenario1, ha1] using hedge
          simpa using this
        rcases hb with rfl | rfl <;> exact absurd hmb (by decide)
      · simp [Edge, scenario1, ha1, ha2] at hedge
  exact ⟨hclosed, hroot, hleaf, hacyc, by decide,
    resolve_exactly_terminal_descendants scenario1 "100" hclosed hroot hleaf hacyc⟩

/-- C2: When the child-listing call fails for a manager, the traversal
does not raise (it is a total function), the failing branch contributes
nothing, sibling terminals are still returned — in the spec's scenario 2,
`resolve("100") = {"300"}` — and, in general, a manager that has been
dequeued is never present in (hence never re-enqueued into) the queue. -/
theorem failed_branch_skipped_siblings_kept :
    get_full_account_hierarchy scenario2Env 10 "100" = {"300"} ∧
    (∀ (env : ListEnv) (fuel : Nat) (root m : String),
      m ∈ (runTraversal env fuel (initState root)).expanded →
      m ∉ (runTraversal env fuel (initState root)).queue) := by
  constructor
  · decide
  · intro env fuel root m hexp hq
    have h := runTraversal_count env fuel (initState root) (countInv_init root) m
    have h1 : 0 < (runTraversal env fuel (initState root)).expanded.count m :=
      List.count_pos_iff.mpr hexp
    have h2 : 0 < (runTraversal env fuel (initState root)).queue.count m :=
      List.count_pos_iff.mpr hq
    by_cases hm : m ∈ (runTraversal env fuel (initState root)).visited
    · rw [if_pos hm] at h
      omega
    · rw [if_neg hm] at h
      omega

/-- Witness for C2: in scenario 2 the result is `{"300"}`, and the
failed manager `"200"`, already expanded, is not in the queue. -/
theorem failed_branch_skipped_siblings_kept_witness :
    get_full_account_hierarchy scenario2Env 10 "100" = {"300"} ∧
    "200" ∈ (runTraversal scenario2Env 10 (initState "100")).expanded ∧
    "200" ∉ (runTraversal scenario2Env 10 (initState "100")).queue := by
  refine ⟨failed_branch_skipped_siblings_kept.1, by decide, ?_⟩
  exact failed_branch_skipped_siblings_kept.2 scenario2Env 10 "100" "200" (by decide)

/-- C4 counterexample: with the root's listing tagging `"200"` both as a
manager and as a client, the ID `"200"` — tagged manager in a processed
response — appears in the output set; and with a listing reporting the
root `"100"` itself as a client child, the root ID appears in the
output set.  Both refute the claim that no ever-tagged-manager ID and
never the root ID appears. -/
theorem mixed_tag_manager_id_in_output :
    (("200", true) ∈ ((mixedTagEnv "100").getD []) ∧
      "200" ∈ get_full_account_hierarchy mixedTagEnv 10 "100") ∧
    (("100", false) ∈ ((rootChildEnv "100").getD []) ∧
      "100" ∈ get_full_account_hierarchy rootChildEnv 10 "100") := by
  decide

/-- C4 amended: every ID in the output set was reported with a client
(non-manager) tag in the listing of some expanded manager; consequently
an ID that is never tagged client — one only ever tagged manager, or the
root when never reported as a client — cannot appear in the output. -/
theorem output_ids_were_client_tagged (env : ListEnv) (fuel : Nat) (root t : String)
    (ht : t ∈ get_full_account_hierarchy env fuel root) :
    ∃ m rows, m ∈ (runTraversal env fuel (initState root)).expanded ∧
      env m = some rows ∧ (t, false) ∈ rows :=
  clientTagged_run env fuel (initState root) (clientTagged_init env root) t ht

/-- Witness for C4's amended theorem at the mixed-tag environment. -/
theorem output_ids_were_client_tagged_witness :
    "200" ∈ get_full_account_hierarchy mixedTagEnv 10 "100" ∧
    ∃ m rows, m ∈ (runTraversal mixedTagEnv 10 (initState "100")).expanded ∧
      mixedTagEnv m = some rows ∧ ("200", false) ∈ rows :=
  ⟨by decide, output_ids_were_client_tagged mixedTagEnv 10 "100" "200" (by decide)⟩

/-- C6: no account is ever dequeued-and-expanded twice (for any
environment, including diamonds), and on a closed hierarchy every
account in the final visited set has been expanded exactly once. -/
theorem visited_managers_expanded_exactly_once
    (H : Hierarchy) (root : String) (hclosed : Closed H root) :
    (∀ (env : ListEnv) (fuel : Nat) (m : String),
      (runTraversal env fuel (initState root)).expanded.count m ≤ 1) ∧
    (∀ m ∈ (resolveState H root).visited,
      (resolveState H root).expanded.count m = 1) := by
  constructor
  · intro env fuel m
    have h := runTraversal_count env fuel (initState root) (countInv_init root) m
    by_cases hm : m ∈ (runTraversal env fuel (initState root)).visited
    · rw [if_pos hm] at h
      omega
    · rw [if_neg hm] at h
      omega
  · intro m hm
    have h := runTraversal_count (envOf H) (fuelFor H) (initState root) (countInv_init root)
    have h2 : (resolveState H root).expanded.count m + (resolveState H root).queue.count m =
        if m ∈ (resolveState H root).visited then 1 else 0 := h m
    have hnil := resolveState_queue_nil H root hclosed
    rw [hnil, if_pos hm] at h2
    simpa using h2

/-- Witness for C6 at the diamond hierarchy: `"400"` is reported by both
`"200"` and `"300"`, is visited, and is expanded exactly once. -/
theorem visited_managers_expanded_exactly_once_witness :
    Closed diamond "100" ∧
    "400" ∈ diamond.children "200" ∧ "400" ∈ diamond.children "300" ∧
    "400" ∈ (resolveState diamond "100").visited ∧
    (resolveState diamond "100").expanded.count "400" = 1 := by
  have hclosed : Closed diamond "100" := by decide
  refine ⟨hclosed, by decide, by decide, by decide, ?_⟩
  exact (visited_managers_expanded_exactly_once diamond "100" hclosed).2 "400" (by decide)

/-- C3: `query_clicks_for_customer` never raises on an API-level error:
a permission-denied failure, any other API-level failure, and a
successful query with zero rows all yield the empty record list —
indistinguishable by return value (only the log differs). -/
theorem fetch_clicks_errors_return_empty (search : SearchEnv) (cid d : String) :
    (∀ first rest, search cid d = .failure first rest →
      (query_clicks_for_customer search cid d).1 = []) ∧
    (search cid d = .success [] →
      (query_clicks_for_customer search cid d).1 = []) := by
  constructor
  · intro f r h
    unfold query_clicks_for_customer
    rw [h]
    show (if (f :: r).any (fun e => e.permission_denied) then
            (([] : List ClickRecord), FetchLog.debugDenied)
          else ([], FetchLog.warnOther f.message)).1 = []
    split <;> rfl
  · intro h
    unfold query_clicks_for_customer
    rw [h]
    rfl

/-- Witness for C3: a permission-denied failure, a generic failure and a
zero-row success all return `[]` (scenario 3's input among them). -/
theorem fetch_clicks_errors_return_empty_witness :
    (query_clicks_for_customer deniedSearch "777" "2024-01-15").1 = [] ∧
    (query_clicks_for_customer otherErrorSearch "777" "2024-01-15").1 = [] ∧
    (query_clicks_for_customer emptySearch "777" "2024-01-15").1 = [] :=
  ⟨(fetch_clicks_errors_return_empty deniedSearch "777" "2024-01-15").1 _ _ rfl,
   (fetch_clicks_errors_return_empty otherErrorSearch "777" "2024-01-15").1 _ _ rfl,
   (fetch_clicks_errors_return_empty emptySearch "777" "2024-01-15").2 rfl⟩

/-- C5: on a successful query every returned row maps to exactly one
record, in service order, stamped `customer_id = account`; when the
service honours the single-date filter, each record's timestamp equals
the target date. -/
theorem fetch_clicks_maps_all_rows
    (search : SearchEnv) (cid d : String) (rows : List ClickRow)
    (hs : search cid d = .success rows)
    (hdate : ∀ row ∈ rows, row.segments_date = d) :
    (query_clicks_for_customer search cid d).1 = rows.map (mkClickRecord cid) ∧
    (query_clicks_for_customer search cid d).1.length = rows.length ∧
    (∀ rec ∈ (query_clicks_for_customer search cid d).1,
      rec.customer_id = cid ∧ rec.timestamp = d) := by
  have hmap : (query_clicks_for_customer search cid d).1 = rows.map (mkClickRecord cid) := by
    unfold query_clicks_for_customer
    rw [hs]
    by_cases hrows : rows = []
    · subst hrows
      rfl
    · simp only [if_neg hrows]
  refine ⟨hmap, by rw [hmap, List.length_map], ?_⟩
  intro rec hrec
  rw [hmap] at hrec
  rcases List.mem_map.mp hrec with ⟨row, hrow, hmk⟩
  subst hmk
  exact ⟨rfl, hdate row hrow⟩

/-- Witness for C5 at scenario 4: two rows for `"888"` on
`"2024-01-15"` yield a 2-element list, each record stamped with the
customer ID and the target date. -/
theorem fetch_clicks_maps_all_rows_witness :
    scenario4Search "888" "2024-01-15" = .success scenario4Rows ∧
    scenario4Rows.length = 2 ∧
    ((query_clicks_for_customer scenario4Search "888" "2024-01-15").1 =
        scenario4Rows.map (mkClickRecord "888") ∧
      (query_clicks_for_customer scenario4Search "888" "2024-01-15").1.length =
        scenario4Rows.length ∧
      (∀ rec ∈ (query_clicks_for_customer scenario4Search "888" "2024-01-15").1,
        rec.customer_id = "888" ∧ rec.timestamp = "2024-01-15")) :=
  ⟨rfl, rfl,
    fetch_clicks_maps_all_rows scenario4Search "888" "2024-01-15" scenario4Rows rfl
      (by decide)⟩

/-- C9: the fetch result is all-or-nothing — either the complete mapping
of a successful response's rows, or the empty list; never a strict
non-empty prefix, because a failure precedes every append. -/
theorem fetch_clicks_all_or_nothing (search : SearchEnv) (cid d : String) :
    (query_clicks_for_customer search cid d).1 = [] ∨
    ∃ rows, search cid d = .success rows ∧
      (query_clicks_for_customer search cid d).1 = rows.map (mkClickRecord cid) := by
  unfold query_clicks_for_customer
  cases hs : search cid d with
  | success rows =>
      by_cases hrows : rows = []
      · subst hrows
        exact Or.inl rfl
      · refine Or.inr ⟨rows, rfl, ?_⟩
        show (if rows = [] then (([] : List ClickRecord), FetchLog.infoNoData)
              else (rows.map (mkClickRecord cid), FetchLog.infoRows rows.length)).1 =
          rows.map (mkClickRecord cid)
        rw [if_neg hrows]
  | failure f r =>
      refine Or.inl ?_
      show (if (f :: r).any (fun e => e.permission_denied) then
              (([] : List ClickRecord), FetchLog.debugDenied)
            else ([], FetchLog.warnOther f.message)).1 = []
      split <;> rfl

lemma collectAllData_empty (fetch : String → List ClickRecord)
    (h : ∀ cid, fetch cid = []) (ids : List String) :
    collectAllData fetch ids = [] := by
  unfold collectAllData
  induction ids with
  | nil => rfl
  | cons i is ih =>
      simp only [List.foldl_cons]
      rw [h i]
      simpa using ih

lemma mainRun_ok (creds : Config) (env : ListEnv) (fuel : Nat) (search : SearchEnv)
    (d : String) (hok : build_client_with_refresh creds = .ok ()) :
    mainRun creds env fuel search d =
      (if collectAllData (fun cid => (query_clicks_for_customer search cid d).1)
            (sortedIds (get_full_account_hierarchy env fuel
              (stripHyphens ((creds "login_customer_id").getD "")))) = []
       then .noData
       else .wrote (collectAllData (fun cid => (query_clicks_for_customer search cid d).1)
            (sortedIds (get_full_account_hierarchy env fuel
              (stripHyphens ((creds "login_customer_id").getD "")))))) := by
  unfold mainRun
  rw [hok]

/-- C7: when the aggregate click list over all resolved accounts is
empty after the full sweep, `main` skips file output and terminates as a
normal (non-error) run; a file is written only when at least one record
was collected. -/
theorem no_output_when_no_data
    (creds : Config) (env : ListEnv) (fuel : Nat) (search : SearchEnv) (d : String)
    (hok : build_client_with_refresh creds = .ok ()) :
    (collectAllData (fun cid => (query_clicks_for_customer search cid d).1)
        (sortedIds (get_full_account_hierarchy env fuel
          (stripHyphens ((creds "login_customer_id").getD "")))) = [] →
      mainRun creds env fuel search d = .noData) ∧
    (∀ recs, mainRun creds env fuel search d = .wrote recs →
      recs ≠ [] ∧
      recs = collectAllData (fun cid => (query_clicks_for_customer search cid d).1)
        (sortedIds (get_full_account_hierarchy env fuel
          (stripHyphens ((creds "login_customer_id").getD ""))))) := by
  rw [mainRun_ok creds env fuel search d hok]
  constructor
  · intro h
    rw [if_pos h]
  · intro recs h
    by_cases hall : collectAllData (fun cid => (query_clicks_for_customer search cid d).1)
        (sortedIds (get_full_account_hierarchy env fuel
          (stripHyphens ((creds "login_customer_id").getD "")))) = []
    · rw [if_pos hall] at h
      cases h
    · rw [if_neg hall] at h
      cases h
      exact ⟨hall, rfl⟩

/-- Witness for C7: with full credentials, a trivial hierarchy and a
reporting service returning no rows, `main` ends with `noData`. -/
theorem no_output_when_no_data_witness :
    build_client_with_refresh fullCreds = .ok () ∧
    mainRun fullCreds mgrOnlyEnv 10 emptySearch "2024-01-15" = .noData := by
  have hok : build_client_with_refresh fullCreds = .ok () := by rfl
  refine ⟨hok, ?_⟩
  refine (no_output_when_no_data fullCreds mgrOnlyEnv 10 emptySearch "2024-01-15" hok).1 ?_
  refine collectAllData_empty _ ?_ _
  intro cid
  rfl

/-- C8: if at least one required credential field is missing, client
construction fails with the missing-credentials error and the run aborts
before any traversal or fetch: the outcome is `initFailed` carrying the
missing fields, no output is produced, and the outcome is independent of
the remote services (so no listing or query call can influence it). -/
theorem missing_credentials_abort_run
    (creds : Config) (env : ListEnv) (fuel : Nat) (search : SearchEnv) (d : String)
    (hmiss : ∃ f ∈ REQUIRED_FIELDS, fieldMissing creds f = true) :
    mainRun creds env fuel search d = .initFailed (missingFields creds) ∧
    build_client_with_refresh creds = .error (missingFields creds) ∧
    (∀ (env2 : ListEnv) (fuel2 : Nat) (search2 : SearchEnv) (d2 : String),
      mainRun creds env2 fuel2 search2 d2 = mainRun creds env fuel search d) := by
  have hne : missingFields creds ≠ [] := by
    rcases hmiss with ⟨f, hf, hmf⟩
    intro h
    have hmem : f ∈ missingFields creds := List.mem_filter.mpr ⟨hf, hmf⟩
    rw [h] at hmem
    exact absurd hmem (List.not_mem_nil _)
  have herr : build_client_with_refresh creds = .error (missingFields creds) := by
    unfold build_client_with_refresh
    rw [if_neg hne]
  have hmain : ∀ (env2 : ListEnv) (fuel2 : Nat) (search2 : SearchEnv) (d2 : String),
      mainRun creds env2 fuel2 search2 d2 = .initFailed (missingFields creds) := by
    intro env2 fuel2 search2 d2
    unfold mainRun
    rw [herr]
  refine ⟨hmain env fuel search d, herr, ?_⟩
  intro env2 fuel2 search2 d2
  rw [hmain env2 fuel2 search2 d2, hmain env fuel search d]

/-- Witness for C8: with every credential variable unset, the run ends
in `initFailed` with all five required fields reported missing. -/
theorem missing_credentials_abort_run_witness :
    (∃ f ∈ REQUIRED_FIELDS, fieldMissing (GOOGLE_ADS_CONFIG (fun _ => none)) f = true) ∧
    mainRun (GOOGLE_ADS_CONFIG (fun _ => none)) mgrOnlyEnv 10 emptySearch "2024-01-15" =
      .initFailed (missingFields (GOOGLE_ADS_CONFIG (fun _ => none))) := by
  have hmiss : ∃ f ∈ REQUIRED_FIELDS,
      fieldMissing (GOOGLE_ADS_CONFIG (fun _ => none)) f = true :=
    ⟨"developer_token", by decide, by decide⟩
  exact ⟨hmiss,
    (missing_credentials_abort_run (GOOGLE_ADS_CONFIG (fun _ => none)) mgrOnlyEnv 10
      emptySearch "2024-01-15" hmiss).1⟩

/-- C10: a required field present with the empty-string value — the
default `GOOGLE_ADS_CONFIG` assigns when its environment variable is
unset — is treated exactly as an absent field: the Python truth test
reports it missing just as for `none`, it lands in the missing list, and
`build_client_with_refresh` raises the missing-credentials error. -/
theorem empty_string_credential_is_missing
    (creds : Config) (f : String) (hf : f ∈ REQUIRED_FIELDS) (hv : creds f = some "") :
    fieldMissing creds f = true ∧
    (∀ creds2 : Config, creds2 f = none → fieldMissing creds2 f = fieldMissing creds f) ∧
    f ∈ missingFields creds ∧
    build_client_with_refresh creds = .error (missingFields creds) ∧
    (∀ getenv : Getenv, getenv (envVarOf f) = none →
      GOOGLE_ADS_CONFIG getenv f = some "") := by
  have hfm : fieldMissing creds f = true := by
    unfold fieldMissing
    rw [hv]
    rfl
  have hmem : f ∈ missingFields creds := List.mem_filter.mpr ⟨hf, hfm⟩
  have hne : missingFields creds ≠ [] := by
    intro h
    rw [h] at hmem
    exact absurd hmem (List.not_mem_nil _)
  refine ⟨hfm, ?_, hmem, ?_, ?_⟩
  · intro creds2 h2
    unfold fieldMissing
    rw [h2, hv]
    rfl
  · unfold build_client_with_refresh
    rw [if_neg hne]
  · intro getenv hg
    have : f = "developer_token" ∨ f = "client_id" ∨ f = "client_secret" ∨
        f = "refresh_token" ∨ f = "login_customer_id" := by
      simpa [REQUIRED_FIELDS] using hf
    rcases this with rfl | rfl | rfl | rfl | rfl <;>
      · simp [envVarOf] at hg
        simp [GOOGLE_ADS_CONFIG, hg]

/-- Witness for C10: `GOOGLE_ADS_CONFIG` with `GOOGLE_ADS_DEVELOPER_TOKEN`
unset yields `developer_token = some ""`, which is reported missing. -/
theorem empty_string_credential_is_missing_witness :
    "developer_token" ∈ REQUIRED_FIELDS ∧
    GOOGLE_ADS_CONFIG (fun _ => none) "developer_token" = some "" ∧
    (fieldMissing (GOOGLE_ADS_CONFIG (fun _ => none)) "developer_token" = true ∧
      "developer_token" ∈ missingFields (GOOGLE_ADS_CONFIG (fun _ => none)) ∧
      build_client_with_refresh (GOOGLE_ADS_CONFIG (fun _ => none)) =
        .error (missingFields (GOOGLE_ADS_CONFIG (fun _ => none)))) := by
  have h := empty_string_credential_is_missing (GOOGLE_ADS_CONFIG (fun _ => none))
    "developer_token" (by decide) (by decide)
  exact ⟨by decide, by decide, h.1, h.2.2.1, h.2.2.2.1⟩

end GoogleAdsLocal
